import Mathlib

/-! Shallow embedding of `src/singlediodeIV.py` (repository CosmicAnkit/pyJV).

The Python function `generateIV(*user_parameters)` concatenates its positional
list arguments, unpacks them as `[n, T, I0, Iph, Rs, Rsh]` (falling back to the
defaults `[1, 300, 1E-9, 0.0, 10, 1E6]` when no argument is given), builds the
voltage axis `np.arange(-2.0, 1.0, 0.01)`, and for each voltage `V` computes

  z = (Rs*I0)/(n*Vth) * exp((Rs*(Iph+I0)+V)/(n*Vth*(1+Rs/Rsh)))
  I = ((Iph + I0) - V/Rsh)/(1 + Rs/Rsh) - (n*Vth)/Rs * W(z, k=0)

with `Vth = 8.617332E-5*T`, appending `-I.real`.  It returns the Python list
`[voltages, currents]`.

Numbers are modelled as real numbers.  The external complex-valued Lambert-W
evaluator `scipy.special.lambertw` is modelled as a function parameter
`w : ℝ → ℂ` (its argument `z` is always real in this program); theorems that
need the defining property of the principal branch either quantify over any
evaluator satisfying `IsLambertW0` or use the canonical `W0c` constructed below
by the intermediate value theorem.

Python raises `ZeroDivisionError` during the first loop iteration exactly when
one of the pure-Python scalar divisions has a zero denominator: `(Rs*I0)/(n*Vth)`
(so `n*Vth = 0`), `Rs/Rsh` (so `Rsh = 0`), or `(n*Vth)/Rs` (so `Rs = 0`); the
remaining divisions involve the numpy float `V` and do not raise.  Tuple
unpacking of a parameter list whose length is not 6 raises `ValueError` before
the sweep starts.  Both abort the call with no partial output, modelled with
`Except`. -/

open scoped Classical

noncomputable section

namespace SingleDiodeIV

/-- Thermal voltage `Vth = 8.617332E-5*T` (source line 72). -/
def thermalVoltage (T : ℝ) : ℝ := 8.617332e-5 * T

/-- Real-number model of `np.arange start stop step`: the samples
`start + k*step` for `0 ≤ k < ⌈(stop - start)/step⌉` (numpy's documented
length formula). -/
def arange (start stop step : ℝ) : List ℝ :=
  (List.range (Int.toNat ⌈(stop - start) / step⌉)).map fun (k : ℕ) => start + (k : ℝ) * step

/-- The hard-coded voltage axis `list(np.arange(-2.0, 1.0, 0.01))`
(source lines 65-66). -/
def voltages : List ℝ := arange (-2.0) 1.0 0.01

/-- Argument of the exponential inside the Lambert-W argument `z`
(source line 76). -/
def lambertExpArg (n T I0 Iph Rs Rsh V : ℝ) : ℝ :=
  (Rs * (Iph + I0) + V) / (n * thermalVoltage T * (1 + Rs / Rsh))

/-- The Lambert-W argument `z = (Rs*I0)/(n*Vth)*exp(...)` (source line 76). -/
def lambertArg (n T I0 Iph Rs Rsh V : ℝ) : ℝ :=
  (Rs * I0) / (n * thermalVoltage T) * Real.exp (lambertExpArg n T I0 Iph Rs Rsh V)

/-- One iteration of the voltage loop (source lines 76-78): the appended value
`-I.real`, where `I` is complex because `W(z, k=0)` is complex. -/
def sampleCurrent (w : ℝ → ℂ) (n T I0 Iph Rs Rsh V : ℝ) : ℝ :=
  (-(Complex.ofReal (((Iph + I0) - V / Rsh) / (1 + Rs / Rsh)) -
      Complex.ofReal ((n * thermalVoltage T) / Rs) * w (lambertArg n T I0 Iph Rs Rsh V))).re

/-- The Python exceptions this function can raise: `ZeroDivisionError` from a
scalar division with zero denominator, `ValueError` from unpacking a parameter
list whose length is not 6. -/
inductive PyError
  | zeroDivisionError
  | valueError

/-- The sweep over a fixed six-parameter set (source lines 62-82): raise
`ZeroDivisionError` if a pure-Python scalar division in the loop body has a
zero denominator (first iteration, before any sample is stored); otherwise
return `IV_data = [voltages, currents]`. -/
def solveIV (w : ℝ → ℂ) (n T I0 Iph Rs Rsh : ℝ) : Except PyError (List (List ℝ)) :=
  if n * thermalVoltage T = 0 ∨ Rsh = 0 ∨ Rs = 0 then Except.error PyError.zeroDivisionError
  else Except.ok [voltages, voltages.map (sampleCurrent w n T I0 Iph Rs Rsh)]

/-- Unpacking `n, T, I0, Iph, Rs, Rsh = parameters` (source line 62):
`ValueError` unless the list has exactly 6 elements. -/
def unpackSolve (w : ℝ → ℂ) : List ℝ → Except PyError (List (List ℝ))
  | [n, T, I0, Iph, Rs, Rsh] => solveIV w n T I0 Iph Rs Rsh
  | _ => Except.error PyError.valueError

/-- `generateIV(*user_parameters)` (source lines 9-82): concatenate the
positional list arguments (or use the defaults when none are supplied), unpack,
and run the sweep. -/
def generateIV (w : ℝ → ℂ) (user_parameters : List (List ℝ)) :
    Except PyError (List (List ℝ)) :=
  unpackSolve w
    (if user_parameters.isEmpty then ([1, 300, 1e-9, 0.0, 10, 1e6] : List ℝ)
     else user_parameters.flatten)

/-- The explicit (non-Lambert-W) single-diode equation
`I = Iph - I0*(exp(V/(n*Vth)) - 1) - V/Rsh` that the spec prescribes as the
`Rs = 0` fallback.  It appears in the spec only: `generateIV` has no
corresponding branch (see the theorems for claim C3). -/
def specExplicitDiodeCurrent (n T I0 Iph Rsh V : ℝ) : ℝ :=
  Iph - I0 * (Real.exp (V / (n * thermalVoltage T)) - 1) - V / Rsh

/-- Natural logarithm of the largest finite IEEE-754 double,
`ln((2 - 2⁻⁵²)·2¹⁰²³) ≈ 709.7827`.  `np.exp x` overflows to `inf` in double
precision whenever `x` exceeds this threshold. -/
def maxDoubleExpArg : ℝ := 709.782712893384

/-- A complex-valued evaluator of the principal Lambert-W branch on the
non-negative reals: there the branch is real-valued, non-negative, and
satisfies the defining identity `w·e^w = x`. -/
def IsLambertW0 (w : ℝ → ℂ) : Prop :=
  ∀ x : ℝ, 0 ≤ x → (w x).im = 0 ∧ 0 ≤ (w x).re ∧ (w x).re * Real.exp ((w x).re) = x

/-- Existence of the principal Lambert-W value for non-negative arguments, by
the intermediate value theorem applied to `u ↦ u·e^u` on `[0, x]`. -/
theorem lambertW_exists (x : ℝ) (hx : 0 ≤ x) : ∃ u, 0 ≤ u ∧ u * Real.exp u = x := by
  have hc : ContinuousOn (fun u : ℝ => u * Real.exp u) (Set.Icc 0 x) :=
    (continuous_id.mul Real.continuous_exp).continuousOn
  have hx2 : x ≤ x * Real.exp x := by
    have h1 : 1 ≤ Real.exp x := by have := Real.add_one_le_exp x; linarith
    nlinarith
  have hsub := intermediate_value_Icc hx hc
  have hmem : x ∈ Set.Icc ((fun u : ℝ => u * Real.exp u) 0) ((fun u : ℝ => u * Real.exp u) x) := by
    simp only [Real.exp_zero, zero_mul, mul_one]
    exact ⟨hx, hx2⟩
  obtain ⟨u, hu, hux⟩ := hsub hmem
  exact ⟨u, hu.1, hux⟩

/-- Canonical real principal-branch Lambert-W on `[0, ∞)` (value 0 elsewhere). -/
def W0 (x : ℝ) : ℝ := if hx : 0 ≤ x then (lambertW_exists x hx).choose else 0

theorem W0_spec (x : ℝ) (hx : 0 ≤ x) : 0 ≤ W0 x ∧ W0 x * Real.exp (W0 x) = x := by
  unfold W0
  rw [dif_pos hx]
  exact (lambertW_exists x hx).choose_spec

/-- Canonical complex-valued Lambert-W evaluator, the model of
`scipy.special.lambertw(·, k=0)` on the real arguments this program produces. -/
def W0c (x : ℝ) : ℂ := ((W0 x : ℝ) : ℂ)

theorem W0c_isLambert : IsLambertW0 W0c := by
  intro x hx
  obtain ⟨h0, hid⟩ := W0_spec x hx
  refine ⟨?_, ?_, ?_⟩ <;> simp [W0c, h0, hid]

/-! Reduction lemmas. -/

theorem generateIV_params (w : ℝ → ℂ) (n T I0 Iph Rs Rsh : ℝ) :
    generateIV w [[n, T, I0, Iph, Rs, Rsh]] = solveIV w n T I0 Iph Rs Rsh := rfl

theorem generateIV_default (w : ℝ → ℂ) :
    generateIV w [] = solveIV w 1 300 1e-9 0.0 10 1e6 := rfl

theorem solveIV_ok (w : ℝ → ℂ) (n T I0 Iph Rs Rsh : ℝ)
    (h1 : n * thermalVoltage T ≠ 0) (h2 : Rsh ≠ 0) (h3 : Rs ≠ 0) :
    solveIV w n T I0 Iph Rs Rsh =
      Except.ok [voltages, voltages.map (sampleCurrent w n T I0 Iph Rs Rsh)] := by
  simp [solveIV, h1, h2, h3]

theorem unpackSolve_of_length_ne_six (w : ℝ → ℂ) (l : List ℝ) (h : l.length ≠ 6) :
    unpackSolve w l = Except.error PyError.valueError := by
  match l with
  | [] => rfl
  | [a] => rfl
  | [a, b] => rfl
  | [a, b, c] => rfl
  | [a, b, c, d] => rfl
  | [a, b, c, d, e] => rfl
  | [a, b, c, d, e, f] => exact absurd rfl h
  | a :: b :: c :: d :: e :: f :: g :: rest => rfl

theorem unpackSolve_ok_length (w : ℝ → ℂ) (l : List ℝ) (res : List (List ℝ))
    (h : unpackSolve w l = Except.ok res) : l.length = 6 := by
  by_contra hne
  rw [unpackSolve_of_length_ne_six w l hne] at h
  exact absurd h (by simp)

/-- The real value that the complex per-sample expression reduces to: the
imaginary part contributed by the Lambert-W evaluation is discarded. -/
theorem sampleCurrent_eq (w : ℝ → ℂ) (n T I0 Iph Rs Rsh V : ℝ) :
    sampleCurrent w n T I0 Iph Rs Rsh V =
      -(((Iph + I0) - V / Rsh) / (1 + Rs / Rsh) -
        (n * thermalVoltage T) / Rs * (w (lambertArg n T I0 Iph Rs Rsh V)).re) := by
  unfold sampleCurrent
  simp only [Complex.neg_re, Complex.sub_re, Complex.ofReal_re, Complex.re_ofReal_mul]

/-- The sweep has exactly 300 samples: `⌈(1.0 - (-2.0))/0.01⌉ = 300`. -/
theorem sweep_count : Int.toNat ⌈((1.0 : ℝ) - (-2.0)) / 0.01⌉ = 300 := by
  have h : ((1.0 : ℝ) - (-2.0)) / 0.01 = ((300 : ℤ) : ℝ) := by norm_num
  rw [h, Int.ceil_intCast]
  rfl

theorem voltages_length : voltages.length = 300 := by
  simp only [voltages, arange, List.length_map, List.length_range]
  exact sweep_count

theorem mem_voltages_of_index (k : ℕ) (hk : k < 300) :
    (-2.0 + (k : ℝ) * 0.01) ∈ voltages := by
  simp only [voltages, arange]
  exact List.mem_map.mpr ⟨k, List.mem_range.mpr (by rw [sweep_count]; exact hk), rfl⟩

theorem zero_mem_voltages : (0 : ℝ) ∈ voltages := by
  have h := mem_voltages_of_index 200 (by norm_num)
  norm_num at h
  exact h

theorem unpackSolve_ok_shape (w : ℝ → ℂ) (l : List ℝ) (res : List (List ℝ))
    (h : unpackSolve w l = Except.ok res) : res.map List.length = [300, 300] := by
  match l with
  | [n, T, I0, Iph, Rs, Rsh] =>
    have hred : unpackSolve w [n, T, I0, Iph, Rs, Rsh] = solveIV w n T I0 Iph Rs Rsh := rfl
    rw [hred] at h
    unfold solveIV at h
    by_cases hc : n * thermalVoltage T = 0 ∨ Rsh = 0 ∨ Rs = 0
    · rw [if_pos hc] at h
      exact absurd h (by simp)
    · rw [if_neg hc] at h
      have hres := Except.ok.inj h
      simp [← hres, voltages_length]
  | [] => simp [unpackSolve] at h
  | [a] => simp [unpackSolve] at h
  | [a, b] => simp [unpackSolve] at h
  | [a, b, c] => simp [unpackSolve] at h
  | [a, b, c, d] => simp [unpackSolve] at h
  | [a, b, c, d, e] => simp [unpackSolve] at h
  | a :: b :: c :: d :: e :: f :: g :: rest => simp [unpackSolve] at h

/-! Elementary bounds for the exponential and the Lambert-W value, used by the
numerical claims. -/

theorem exp_le_inv_one_sub (x : ℝ) (hx : x < 1) : Real.exp x ≤ 1 / (1 - x) := by
  have h1 : (0 : ℝ) < 1 - x := by linarith
  have h2 : 1 - x ≤ Real.exp (-x) := by
    have := Real.add_one_le_exp (-x)
    linarith
  have h3 : Real.exp x * (1 - x) ≤ Real.exp x * Real.exp (-x) :=
    mul_le_mul_of_nonneg_left h2 (Real.exp_nonneg x)
  rw [← Real.exp_add] at h3
  simp only [add_neg_cancel, Real.exp_zero] at h3
  rw [le_div_iff₀ h1]
  exact h3

/-- The principal Lambert-W value is at most its argument (for arguments in
`[0, ∞)`). -/
theorem lambert_le_arg (Wv z : ℝ) (hW : 0 ≤ Wv) (hid : Wv * Real.exp Wv = z) :
    Wv ≤ z := by
  have h1 : 1 ≤ Real.exp Wv := by
    have := Real.add_one_le_exp Wv
    linarith
  nlinarith

/-- Lower bound `z·(1 - z) ≤ W(z)` for arguments in `[0, 1)`. -/
theorem lambert_ge_arg_mul (Wv z : ℝ) (hz1 : z < 1)
    (hW : 0 ≤ Wv) (hid : Wv * Real.exp Wv = z) : z * (1 - z) ≤ Wv := by
  have hWz : Wv ≤ z := lambert_le_arg Wv z hW hid
  have hmono : Real.exp Wv ≤ Real.exp z := Real.exp_le_exp.mpr hWz
  have hA : z ≤ Wv * Real.exp z := by
    have := mul_le_mul_of_nonneg_left hmono hW
    nlinarith
  have hB : Real.exp z * (1 - z) ≤ 1 := by
    have h1 : (0 : ℝ) < 1 - z := by linarith
    have := exp_le_inv_one_sub z hz1
    rw [le_div_iff₀ h1] at this
    exact this
  nlinarith [mul_le_mul_of_nonneg_right hA (by linarith : (0 : ℝ) ≤ 1 - z),
    mul_le_mul_of_nonneg_left hB hW]

/-! Claim theorems. -/

/-- C1: for every parameter set with `Rs > 0` (and the sweep reachable, i.e.
the pure-Python scalar divisions defined: `n·Vth ≠ 0`, `Rsh ≠ 0`), the solver
returns, at every voltage sample `V` of the sweep, exactly the negation of the
real part of `((Iph + I0) - V/Rsh)/(1 + Rs/Rsh) - (n·Vth/Rs)·W0(z)` with
`Vth = 8.617332e-5·T` and
`z = (Rs·I0/(n·Vth))·exp((Rs·(Iph+I0) + V)/(n·Vth·(1 + Rs/Rsh)))`; any
imaginary component of the Lambert-W evaluation is discarded. -/
theorem claim1_reported_current_formula (w : ℝ → ℂ) (n T I0 Iph Rs Rsh : ℝ)
    (hRs : 0 < Rs) (hnT : n * thermalVoltage T ≠ 0) (hRsh : Rsh ≠ 0) :
    generateIV w [[n, T, I0, Iph, Rs, Rsh]] =
      Except.ok [voltages, voltages.map fun V =>
        -(((Iph + I0) - V / Rsh) / (1 + Rs / Rsh) -
          n * (8.617332e-5 * T) / Rs *
            (w (Rs * I0 / (n * (8.617332e-5 * T)) *
              Real.exp ((Rs * (Iph + I0) + V) /
                (n * (8.617332e-5 * T) * (1 + Rs / Rsh))))).re)] := by
  rw [generateIV_params, solveIV_ok w n T I0 Iph Rs Rsh hnT hRsh (ne_of_gt hRs)]
  have hfun : sampleCurrent w n T I0 Iph Rs Rsh = fun V =>
      -(((Iph + I0) - V / Rsh) / (1 + Rs / Rsh) -
        n * (8.617332e-5 * T) / Rs *
          (w (Rs * I0 / (n * (8.617332e-5 * T)) *
            Real.exp ((Rs * (Iph + I0) + V) /
              (n * (8.617332e-5 * T) * (1 + Rs / Rsh))))).re) := by
    funext V
    rw [sampleCurrent_eq]
    simp only [thermalVoltage, lambertArg, lambertExpArg]
  rw [hfun]

/-- Witness for C1 at the default parameter set and the canonical Lambert-W
evaluator. -/
theorem claim1_witness :
    generateIV W0c [[1, 300, 1e-9, 0.0, 10, 1e6]] =
      Except.ok [voltages, voltages.map fun V =>
        -(((0.0 + 1e-9) - V / 1e6) / (1 + 10 / 1e6) -
          1 * (8.617332e-5 * 300) / 10 *
            (W0c (10 * 1e-9 / (1 * (8.617332e-5 * 300)) *
              Real.exp ((10 * (0.0 + 1e-9) + V) /
                (1 * (8.617332e-5 * 300) * (1 + 10 / 1e6))))).re)] :=
  claim1_reported_current_formula W0c 1 300 1e-9 0.0 10 1e6 (by norm_num)
    (by norm_num [thermalVoltage]) (by norm_num)

/-- C2 (counterexample): no parameter object exists and nothing validates the
parameters.  With `T = -1` (all other parameters default) the call raises
nothing at all: the full sweep is computed and returned, instead of the claimed
`InvalidParameterError` at construction time. -/
theorem claim2_counterexample :
    generateIV W0c [[1, -1, 1e-9, 0.0, 10, 1e6]] =
      Except.ok [voltages, voltages.map (sampleCurrent W0c 1 (-1) 1e-9 0.0 10 1e6)] := by
  rw [generateIV_params]
  exact solveIV_ok _ _ _ _ _ _ _ (by norm_num [thermalVoltage]) (by norm_num) (by norm_num)

/-- C2 (amended): parameters are accepted unchecked.  `Rsh = 0` raises
`ZeroDivisionError` during the sweep (from the scalar division `Rs/Rsh`), not
`InvalidParameterError` at construction, and `T = -1` completes normally,
returning the usual two full-length series. -/
theorem claim2_no_validation :
    generateIV W0c [[1, 300, 1e-9, 0.0, 10, 0]] = Except.error PyError.zeroDivisionError ∧
    (generateIV W0c [[1, -1, 1e-9, 0.0, 10, 1e6]]).map List.length = Except.ok 2 := by
  constructor
  · rw [generateIV_params]
    unfold solveIV
    rw [if_pos (Or.inr (Or.inl rfl))]
  · rw [generateIV_params, solveIV_ok W0c 1 (-1) 1e-9 0.0 10 1e6
      (by norm_num [thermalVoltage]) (by norm_num) (by norm_num)]
    rfl

/-- C3 (amended): for `Rs = 0` (any other parameters) the solver raises
`ZeroDivisionError` when evaluating the scalar division `(n·Vth)/Rs` at the
first voltage sample.  There is no fallback to the explicit single-diode
equation `specExplicitDiodeCurrent`. -/
theorem claim3_rs_zero_zero_division (w : ℝ → ℂ) (n T I0 Iph Rsh : ℝ) :
    generateIV w [[n, T, I0, Iph, 0, Rsh]] = Except.error PyError.zeroDivisionError := by
  rw [generateIV_params]
  unfold solveIV
  rw [if_pos (Or.inr (Or.inr rfl))]

/-- C3 (counterexample): at `Rs = 0` with otherwise-default parameters the call
raises `ZeroDivisionError` — it returns no output at all, so its output on the
sweep does not equal the explicit equation's output. -/
theorem claim3_counterexample :
    generateIV W0c [[1, 300, 1e-9, 0.0, 0, 1e6]] = Except.error PyError.zeroDivisionError := by
  rw [generateIV_params]
  unfold solveIV
  rw [if_pos (Or.inr (Or.inr rfl))]

/-- C4 (counterexample): the parameter set `T = 0.01` (others default) drives
the argument of `np.exp` above `ln(DBL_MAX) ≈ 709.78` at the sweep sample
`V = 0.99`, so the double-precision evaluation of that sample is non-finite —
yet the call completes normally with the usual two series instead of raising
the claimed `NumericInstabilityError`. -/
theorem claim4_counterexample :
    maxDoubleExpArg < lambertExpArg 1 0.01 1e-9 0.0 10 1e6 0.99 ∧
    (0.99 : ℝ) ∈ voltages ∧
    (generateIV W0c [[1, 0.01, 1e-9, 0.0, 10, 1e6]]).map List.length = Except.ok 2 := by
  refine ⟨?_, ?_, ?_⟩
  · norm_num [maxDoubleExpArg, lambertExpArg, thermalVoltage]
  · have h := mem_voltages_of_index 299 (by norm_num)
    have he : (-2.0 : ℝ) + ((299 : ℕ) : ℝ) * 0.01 = 0.99 := by norm_num
    rwa [he] at h
  · rw [generateIV_params, solveIV_ok W0c 1 0.01 1e-9 0.0 10 1e6
      (by norm_num [thermalVoltage]) (by norm_num) (by norm_num)]
    rfl

/-- C4 (amended): the solver performs no finiteness check: there is no
`NumericInstabilityError` anywhere.  Even for the overflowing parameter set of
`claim4_counterexample` the call returns the full-length series normally; the
only raised errors are `ZeroDivisionError` (when `Rs`, `Rsh` or `n·Vth` is
zero) and `ValueError` (wrong parameter count). -/
theorem claim4_no_instability_check :
    generateIV W0c [[1, 0.01, 1e-9, 0.0, 10, 1e6]] =
      Except.ok [voltages, voltages.map (sampleCurrent W0c 1 0.01 1e-9 0.0 10 1e6)] ∧
    (voltages.map (sampleCurrent W0c 1 0.01 1e-9 0.0 10 1e6)).length = voltages.length := by
  constructor
  · rw [generateIV_params]
    exact solveIV_ok _ _ _ _ _ _ _ (by norm_num [thermalVoltage]) (by norm_num) (by norm_num)
  · simp

/-- C5: the sweep generator produces, for any `v_min < v_max` specification
with `step > 0`, a strictly increasing axis starting at `v_min` with spacing
`step`, bounded below by `v_min` and strictly below `v_max` (half-open), with
exactly `⌈(v_max - v_min)/step⌉` samples; the program's (hard-coded) sweep is
the default `-2.0` to `1.0` with step `0.01`, giving 300 samples. -/
theorem claim5_sweep_axis (v_min v_max step : ℝ) (hstep : 0 < step) :
    (arange v_min v_max step).length = Int.toNat ⌈(v_max - v_min) / step⌉ ∧
    List.Pairwise (· < ·) (arange v_min v_max step) ∧
    (∀ (k : ℕ) (hk : k < (arange v_min v_max step).length),
      (arange v_min v_max step)[k] = v_min + (k : ℝ) * step) ∧
    (∀ x ∈ arange v_min v_max step, v_min ≤ x ∧ x < v_max) ∧
    voltages = arange (-2.0) 1.0 0.01 ∧
    voltages.length = 300 := by
  refine ⟨?_, ?_, ?_, ?_, rfl, voltages_length⟩
  · simp [arange]
  · have hpw : List.Pairwise (· < ·)
        (List.range (Int.toNat ⌈(v_max - v_min) / step⌉)) := List.pairwise_lt_range _
    exact hpw.map _ fun a b hab => by
      have hcast : (a : ℝ) < (b : ℝ) := Nat.cast_lt.mpr hab
      nlinarith
  · intro k hk
    simp [arange]
  · intro x hx
    simp only [arange, List.mem_map, List.mem_range] at hx
    obtain ⟨k, hk, rfl⟩ := hx
    have hk0 : (0 : ℝ) ≤ (k : ℝ) * step :=
      mul_nonneg (Nat.cast_nonneg k) hstep.le
    refine ⟨by linarith, ?_⟩
    have h1 : (k : ℤ) < ⌈(v_max - v_min) / step⌉ := Int.lt_toNat.mp hk
    have h2 : (k : ℝ) ≤ ((⌈(v_max - v_min) / step⌉ : ℤ) : ℝ) - 1 := by
      have hle : (k : ℤ) ≤ ⌈(v_max - v_min) / step⌉ - 1 := Int.le_sub_one_of_lt h1
      exact_mod_cast hle
    have h3 : ((⌈(v_max - v_min) / step⌉ : ℤ) : ℝ) < (v_max - v_min) / step + 1 :=
      Int.ceil_lt_add_one _
    have h4 : (k : ℝ) < (v_max - v_min) / step := by linarith
    have h5 : (k : ℝ) * step < v_max - v_min := (lt_div_iff₀ hstep).mp h4
    linarith

/-- Witness for C5 at the program's own sweep specification. -/
theorem claim5_witness : List.Pairwise (· < ·) voltages ∧ voltages.length = 300 := by
  have h := claim5_sweep_axis (-2.0) 1.0 0.01 (by norm_num)
  refine ⟨?_, h.2.2.2.2.2⟩
  rw [h.2.2.2.2.1]
  exact h.2.1

/-- C6 (amended): whenever the call returns, it returns exactly two series —
the voltage axis and the current series — of equal length 300.  No
current-density series exists. -/
theorem claim6_series_lengths (w : ℝ → ℂ) (args : List (List ℝ)) (res : List (List ℝ))
    (h : generateIV w args = Except.ok res) : res.map List.length = [300, 300] := by
  unfold generateIV at h
  exact unpackSolve_ok_shape w _ res h

/-- Witness for C6 at the default call. -/
theorem claim6_witness :
    [voltages, voltages.map (sampleCurrent W0c 1 300 1e-9 0.0 10 1e6)].map List.length
      = [300, 300] :=
  claim6_series_lengths W0c [] _ (by
    rw [generateIV_default]
    exact solveIV_ok _ _ _ _ _ _ _ (by norm_num [thermalVoltage]) (by norm_num) (by norm_num))

/-- C6 (counterexample): the default call returns a list of exactly TWO series,
`[voltages, currents]`; there is no third, current-density, series for
`len(current_density)` to speak of. -/
theorem claim6_counterexample :
    generateIV W0c [] =
      Except.ok [voltages, voltages.map (sampleCurrent W0c 1 300 1e-9 0.0 10 1e6)] ∧
    [voltages, voltages.map (sampleCurrent W0c 1 300 1e-9 0.0 10 1e6)].length = 2 := by
  constructor
  · rw [generateIV_default]
    exact solveIV_ok _ _ _ _ _ _ _ (by norm_num [thermalVoltage]) (by norm_num) (by norm_num)
  · rfl

/-- C7: the docstring promises that a specified `area` turns the output into
current density, but the unpacking `n, T, I0, Iph, Rs, Rsh = parameters`
accepts exactly six values: appending `area = 2.0` to the default parameters
raises `ValueError`, and no division by `area` exists anywhere in the code. -/
theorem claim7_area_parameter_rejected :
    generateIV W0c [[1, 300, 1e-9, 0.0, 10, 1e6, 2.0]] = Except.error PyError.valueError := rfl

/-- C10: when `generateIV` is called with one or more positional list
arguments, the lists are concatenated; unless the concatenation has exactly 6
elements the call raises `ValueError` from tuple unpacking before any voltage
sample is evaluated (so an `Except.ok` result implies the length was 6, and no
partial output can escape). -/
theorem claim10_positional_unpacking (w : ℝ → ℂ) (args : List (List ℝ)) (hne : args ≠ []) :
    (args.flatten.length ≠ 6 → generateIV w args = Except.error PyError.valueError) ∧
    ∀ res, generateIV w args = Except.ok res → args.flatten.length = 6 := by
  have hgen : generateIV w args = unpackSolve w args.flatten := by
    unfold generateIV
    cases args with
    | nil => exact absurd rfl hne
    | cons a as => rfl
  constructor
  · intro hlen
    rw [hgen]
    exact unpackSolve_of_length_ne_six w _ hlen
  · intro res hres
    rw [hgen] at hres
    exact unpackSolve_ok_length w _ res hres

/-- Witness for C10: a 3-element parameter list is rejected with `ValueError`. -/
theorem claim10_witness :
    generateIV W0c [[1, 2, 3]] = Except.error PyError.valueError :=
  (claim10_positional_unpacking W0c [[1, 2, 3]] (by simp)).1 (by simp)

/-- C8: with the default parameters, `V = 0` is a sweep sample, the default
call returns the sweep's current series, and the current computed at `V = 0`
is zero to within `10⁻¹³` amperes — for any evaluator of the principal
Lambert-W branch. -/
theorem claim8_zero_bias_current (w : ℝ → ℂ) (hw : IsLambertW0 w) :
    (0 : ℝ) ∈ voltages ∧
    generateIV w [] =
      Except.ok [voltages, voltages.map (sampleCurrent w 1 300 1e-9 0.0 10 1e6)] ∧
    |sampleCurrent w 1 300 1e-9 0.0 10 1e6 0| ≤ 1e-13 := by
  refine ⟨zero_mem_voltages, ?_, ?_⟩
  · rw [generateIV_default]
    exact solveIV_ok _ _ _ _ _ _ _ (by norm_num [thermalVoltage]) (by norm_num) (by norm_num)
  · set x0 := lambertExpArg 1 300 1e-9 0.0 10 1e6 0 with hx0def
    have hx0lb : 0 ≤ x0 := by
      rw [hx0def, lambertExpArg, thermalVoltage]
      norm_num
    have hx0ub : x0 ≤ 4e-7 := by
      rw [hx0def, lambertExpArg, thermalVoltage]
      norm_num
    have hE1 : 1 ≤ Real.exp x0 := by
      have := Real.add_one_le_exp x0
      linarith
    have hE2 : Real.exp x0 ≤ 1.0000005 := by
      have h1 : Real.exp x0 ≤ Real.exp 4e-7 := Real.exp_le_exp.mpr hx0ub
      have h2 : Real.exp 4e-7 ≤ 1 / (1 - 4e-7) := exp_le_inv_one_sub 4e-7 (by norm_num)
      have h3 : (1 : ℝ) / (1 - 4e-7) ≤ 1.0000005 := by norm_num
      linarith
    have hzE : lambertArg 1 300 1e-9 0.0 10 1e6 0 = 1e-8 / 0.025851996 * Real.exp x0 := by
      rw [lambertArg]
      congr 1
      rw [thermalVoltage]
      norm_num
    have hz0 : 0 ≤ lambertArg 1 300 1e-9 0.0 10 1e6 0 := by
      rw [hzE]
      positivity
    have hzub : lambertArg 1 300 1e-9 0.0 10 1e6 0 ≤ 4e-7 := by
      rw [hzE]
      calc 1e-8 / 0.025851996 * Real.exp x0 ≤ 1e-8 / 0.025851996 * 1.0000005 :=
            mul_le_mul_of_nonneg_left hE2 (by norm_num)
        _ ≤ 4e-7 := by norm_num
    obtain ⟨him, hWre, hWid⟩ := hw _ hz0
    have hWub := lambert_le_arg _ _ hWre hWid
    have hWlb := lambert_ge_arg_mul _ _ (by linarith) hWre hWid
    rw [sampleCurrent_eq, thermalVoltage, hzE]
    rw [hzE] at hWub hWlb
    rw [abs_le]
    constructor
    · nlinarith [mul_le_mul hE2 hE2 (by linarith) (by norm_num : (0:ℝ) ≤ 1.0000005),
        mul_le_mul hE1 hE1 (by norm_num) (by linarith)]
    · nlinarith [mul_le_mul hE2 hE2 (by linarith) (by norm_num : (0:ℝ) ≤ 1.0000005),
        mul_le_mul hE1 hE1 (by norm_num) (by linarith)]

/-- Witness for C8 at the canonical Lambert-W evaluator. -/
theorem claim8_witness :
    (0 : ℝ) ∈ voltages ∧
    generateIV W0c [] =
      Except.ok [voltages, voltages.map (sampleCurrent W0c 1 300 1e-9 0.0 10 1e6)] ∧
    |sampleCurrent W0c 1 300 1e-9 0.0 10 1e6 0| ≤ 1e-13 :=
  claim8_zero_bias_current W0c W0c_isLambert

/-- C9 (amended): for the default parameters every current at a sweep sample
`V > 0` is positive — this half of the claim holds.  For `V` far below zero
the current does NOT approach `-(Iph + I0)`: it follows the shunt-leakage line
`(V/Rsh - I0)/(1 + Rs/Rsh) ≈ V/Rsh` (about `-2·10⁻⁶ A` at `V = -2`), to which
it is within `10⁻¹⁰`; it would approach `-I0` only in the limit `Rsh → ∞`. -/
theorem claim9_sign_behavior (w : ℝ → ℂ) (hw : IsLambertW0 w) :
    (∀ V ∈ voltages, 0 < V → 0 < sampleCurrent w 1 300 1e-9 0.0 10 1e6 V) ∧
    |sampleCurrent w 1 300 1e-9 0.0 10 1e6 (-2) -
      ((-2) / 1e6 - (0.0 + 1e-9)) / (1 + 10 / 1e6)| ≤ 1e-10 := by
  constructor
  · intro V hV hVpos
    have hV001 : 0.01 ≤ V := by
      simp only [voltages, arange, List.mem_map, List.mem_range] at hV
      obtain ⟨k, hk, rfl⟩ := hV
      have hkR : (200 : ℝ) < (k : ℝ) := by nlinarith
      have hkN : 200 < k := by exact_mod_cast hkR
      have hk201 : (201 : ℝ) ≤ (k : ℝ) := by exact_mod_cast hkN
      nlinarith
    have hz0 : 0 ≤ lambertArg 1 300 1e-9 0.0 10 1e6 V := by
      rw [lambertArg, thermalVoltage]
      positivity
    obtain ⟨him, hWre, hWid⟩ := hw _ hz0
    rw [sampleCurrent_eq, thermalVoltage]
    have hAX : (0 : ℝ) ≤ 1 * (8.617332e-5 * 300) / 10 *
        (w (lambertArg 1 300 1e-9 0.0 10 1e6 V)).re := mul_nonneg (by norm_num) hWre
    have hP : ((0.0 : ℝ) + 1e-9 - V / 1e6) / (1 + 10 / 1e6) < 0 := by
      apply div_neg_of_neg_of_pos
      · linarith
      · norm_num
    linarith
  · set x2 := lambertExpArg 1 300 1e-9 0.0 10 1e6 (-2) with hx2def
    have hx2ub : x2 ≤ -77 := by
      rw [hx2def, lambertExpArg, thermalVoltage]
      norm_num
    have hE2 : Real.exp x2 ≤ 1 / 78 := by
      have h1 : Real.exp x2 ≤ Real.exp (-77) := Real.exp_le_exp.mpr hx2ub
      have h2 : Real.exp (-77 : ℝ) ≤ 1 / (1 - (-77)) := exp_le_inv_one_sub _ (by norm_num)
      have h3 : (1 : ℝ) / (1 - (-77)) = 1 / 78 := by norm_num
      linarith
    have hE0 : 0 ≤ Real.exp x2 := Real.exp_nonneg x2
    have hzE : lambertArg 1 300 1e-9 0.0 10 1e6 (-2) = 1e-8 / 0.025851996 * Real.exp x2 := by
      rw [lambertArg]
      congr 1
      rw [thermalVoltage]
      norm_num
    have hz0 : 0 ≤ lambertArg 1 300 1e-9 0.0 10 1e6 (-2) := by
      rw [hzE]
      positivity
    obtain ⟨him, hWre, hWid⟩ := hw _ hz0
    have hWub := lambert_le_arg _ _ hWre hWid
    rw [hzE] at hWre hWub
    rw [sampleCurrent_eq, thermalVoltage, hzE]
    rw [abs_le]
    constructor
    · nlinarith [hWre, hWub, hE2, hE0]
    · nlinarith [hWre, hWub, hE2, hE0]

/-- Witness for C9 at the canonical evaluator and the concrete positive sample
`V = 0.5`. -/
theorem claim9_witness :
    (0.5 : ℝ) ∈ voltages ∧
    0 < sampleCurrent W0c 1 300 1e-9 0.0 10 1e6 0.5 ∧
    |sampleCurrent W0c 1 300 1e-9 0.0 10 1e6 (-2) -
      ((-2) / 1e6 - (0.0 + 1e-9)) / (1 + 10 / 1e6)| ≤ 1e-10 := by
  have hmem : (0.5 : ℝ) ∈ voltages := by
    have h := mem_voltages_of_index 250 (by norm_num)
    have he : (-2.0 : ℝ) + ((250 : ℕ) : ℝ) * 0.01 = 0.5 := by norm_num
    rwa [he] at h
  have h := claim9_sign_behavior W0c W0c_isLambert
  exact ⟨hmem, h.1 0.5 hmem (by norm_num), h.2⟩

/-- C9 (counterexample): at the sweep sample `V = -2` the solved current is
about `-2·10⁻⁶ A` (shunt leakage `V/Rsh` dominates), which is more than
`10⁻⁶` away from the claimed reverse-saturation value `-(Iph + I0) = -10⁻⁹`:
the current does not approach `-I0` for `V` far below zero. -/
theorem claim9_counterexample :
    (-2 : ℝ) ∈ voltages ∧
    1e-6 ≤ |sampleCurrent W0c 1 300 1e-9 0.0 10 1e6 (-2) - (-(0.0 + 1e-9))| := by
  constructor
  · have h := mem_voltages_of_index 0 (by norm_num)
    have he : (-2.0 : ℝ) + ((0 : ℕ) : ℝ) * 0.01 = -2 := by norm_num
    rwa [he] at h
  · set x2 := lambertExpArg 1 300 1e-9 0.0 10 1e6 (-2) with hx2def
    have hx2ub : x2 ≤ -77 := by
      rw [hx2def, lambertExpArg, thermalVoltage]
      norm_num
    have hE2 : Real.exp x2 ≤ 1 / 78 := by
      have h1 : Real.exp x2 ≤ Real.exp (-77) := Real.exp_le_exp.mpr hx2ub
      have h2 : Real.exp (-77 : ℝ) ≤ 1 / (1 - (-77)) := exp_le_inv_one_sub _ (by norm_num)
      have h3 : (1 : ℝ) / (1 - (-77)) = 1 / 78 := by norm_num
      linarith
    have hE0 : 0 ≤ Real.exp x2 := Real.exp_nonneg x2
    have hzE : lambertArg 1 300 1e-9 0.0 10 1e6 (-2) = 1e-8 / 0.025851996 * Real.exp x2 := by
      rw [lambertArg]
      congr 1
      rw [thermalVoltage]
      norm_num
    have hz0 : 0 ≤ lambertArg 1 300 1e-9 0.0 10 1e6 (-2) := by
      rw [hzE]
      positivity
    obtain ⟨him, hWre, hWid⟩ := W0c_isLambert _ hz0
    have hWub := lambert_le_arg _ _ hWre hWid
    rw [hzE] at hWre hWub
    rw [sampleCurrent_eq, thermalVoltage, hzE, le_abs]
    right
    nlinarith [hWre, hWub, hE2, hE0]

end SingleDiodeIV
